import Mathlib

set_option linter.unusedVariables false

/- Verification of the desmos-graph Obsidian plugin core, as bundled in main.js:
   the DSL parser (`Dsl.parse`), the SHA-256 fingerprint computed in the `Dsl`
   constructor over `JSON.stringify(this)`, and `Renderer.render`'s cache and
   message-listener behaviour. Everything is a shallow embedding of the
   JavaScript source: JS strings are Lean `String`s manipulated through their
   character lists, JS numbers arising from `parseInt` are `Int`, JS objects
   with dynamic keys are records that additionally track key insertion order
   (which `JSON.stringify` observes), and the DOM / promise machinery of the
   renderer is explicit state passing. -/

/-! ## Generic helpers: JS-faithful string primitives

All string operations used by the model are implemented structurally over
`List Char`, mirroring the semantics of the JavaScript string methods the
source uses (`split`, `trim`, `toUpperCase`, `includes`, `startsWith`). -/

/-- JS `String.prototype.split` with a one-character separator given as a
predicate: `"a||b".split("|") = ["a","","b"]`, `"".split("|") = [""]`, and a
trailing separator yields a trailing empty segment. -/
def splitByPred (p : Char → Bool) : List Char → List (List Char)
  | [] => [[]]
  | x :: xs =>
    if p x then [] :: splitByPred p xs
    else
      match splitByPred p xs with
      | [] => [[x]]
      | h :: t => (x :: h) :: t

/-- JS `source.split("---")`: greedy left-to-right scan for the literal
three-character separator. -/
def splitDashes : List Char → List (List Char)
  | '-' :: '-' :: '-' :: rest => [] :: splitDashes rest
  | x :: xs =>
    match splitDashes xs with
    | [] => [[x]]
    | h :: t => (x :: h) :: t
  | [] => [[]]

/-- JS `String.prototype.trim` (over the ASCII whitespace the inputs use). -/
def jsTrim (s : String) : String :=
  String.mk (((s.data.dropWhile Char.isWhitespace).reverse.dropWhile Char.isWhitespace).reverse)

/-- JS `String.prototype.toUpperCase` (over the ASCII range the token
comparisons use). -/
def jsToUpper (s : String) : String :=
  String.mk (s.data.map Char.toUpper)

/-- JS `String.prototype.includes` with a one-character needle. -/
def strContains (s : String) (c : Char) : Bool :=
  s.data.contains c

/-- JS `parseInt(value)` (no explicit radix): skip leading whitespace, read an
optional sign, then either a `0x`/`0X`-prefixed run of hexadecimal digits or a
run of decimal digits; trailing garbage is ignored; no digits means `NaN`
(modelled as `none`).  Doubles are idealised as unbounded integers. -/
def hexDigitValue (c : Char) : Option Nat :=
  if c.isDigit then some (c.toNat - 48)
  else if 'a' ≤ c ∧ c ≤ 'f' then some (c.toNat - 87)
  else if 'A' ≤ c ∧ c ≤ 'F' then some (c.toNat - 55)
  else none

def decDigitsValue (ds : List Char) : Nat :=
  ds.foldl (fun a c => a * 10 + (c.toNat - 48)) 0

def hexDigitsValue (ds : List Char) : Nat :=
  ds.foldl (fun a c => a * 16 + ((hexDigitValue c).getD 0)) 0

def parseIntJS (s : String) : Option Int :=
  let l := s.data.dropWhile Char.isWhitespace
  let sgn : Int := match l with
    | '-' :: _ => -1
    | _ => 1
  let l2 : List Char := match l with
    | '-' :: r => r
    | '+' :: r => r
    | _ => l
  match l2 with
  | '0' :: x :: r =>
    if x = 'x' ∨ x = 'X' then
      let hs := r.takeWhile (fun c => (hexDigitValue c).isSome)
      if hs.isEmpty then none else some (sgn * (hexDigitsValue hs : Int))
    else
      let ds := l2.takeWhile Char.isDigit
      if ds.isEmpty then none else some (sgn * (decDigitsValue ds : Int))
  | _ =>
    let ds := l2.takeWhile Char.isDigit
    if ds.isEmpty then none else some (sgn * (decDigitsValue ds : Int))

/-! ## The DSL data model (src/dsl.ts as bundled in main.js) -/

/-- The style enum constants, `Object.values(EquationStyle)`. -/
def styleNames : List String := ["SOLID", "DASHED", "DOTTED", "POINT", "OPEN", "CROSS"]

/-- The named-color enum constants, `Object.values(EquationColor)`. -/
def colorNames : List String := ["RED", "BLUE", "GREEN", "PURPLE", "ORANGE", "BLACK"]

/-- Source `isHexColor`: the value starts with `#` and the remainder is a nonempty
alphanumeric string (`/^[0-9a-zA-Z]+$/`). -/
def isHexColor (value : String) : Bool :=
  match value.data with
  | c :: rest => c = '#' && !rest.isEmpty && rest.all Char.isAlphanum
  | [] => false

/-- The recognised field keys of `FIELD_DEFAULTS` (all of numeric type). -/
def recognizedKeys : List String := ["width", "height", "left", "right", "bottom", "top"]

/-- The parse-time `SyntaxError`s, one constructor per `throw` site of the
source, each carrying the data interpolated into the thrown message. -/
inductive ParseError where
  | tooManySegments : ParseError
  | missingFieldValue (key : String) : ParseError
  | invalidFieldType (key : String) : ParseError
  | unrecognizedField (key : String) : ParseError
  | bannedChar (c : Char) (ctx : String) : ParseError
  | duplicateStyle (old new : String) : ParseError
  | duplicateColor (old new : String) : ParseError
  | invalidBoundaryLR (left right : Int) : ParseError
  | invalidBoundaryBT (bottom top : Int) : ParseError
deriving DecidableEq, Repr

deriving instance DecidableEq for Except

/-- The banned characters of `assert_notbanned`: double quote, single quote,
backtick (written by code point). -/
def bannedChars : List Char := [Char.ofNat 34, Char.ofNat 39, Char.ofNat 96]

/-- Source `Dsl.assert_notbanned(value, ctx)`: throws on the first banned character
contained in `value`. -/
def checkBanned (value ctx : String) : Except ParseError Unit :=
  match bannedChars.find? (fun c => strContains value c) with
  | some c => .error (.bannedChar c ctx)
  | none => .ok ()

/-- One parsed equation line.  `style`, `color` and `restriction` start out
absent (JS `undefined`); `keyOrder` records the order in which those three
properties were first assigned on the JS object, because `JSON.stringify`
(and hence the fingerprint) observes property insertion order. -/
@[ext]
structure Equation where
  equation : String
  style : Option String := none
  color : Option String := none
  restriction : Option String := none
  keyOrder : List String := []
deriving DecidableEq, Repr

/-- Processing of one `|`-segment after the expression (the body of the
`for (const segment of segments)` loop): style match first, then color
(named or hex), else a restriction fragment wrapped in braces and
concatenated. -/
def processSegment (eq : Equation) (segment : String) : Except ParseError Equation :=
  let upper := jsToUpper segment
  if styleNames.contains upper then
    match eq.style with
    | none => .ok { eq with style := some upper, keyOrder := eq.keyOrder ++ ["style"] }
    | some s => .error (.duplicateStyle s upper)
  else if colorNames.contains upper || isHexColor segment then
    match eq.color with
    | none =>
      .ok { eq with
        color := some (if isHexColor segment then segment else upper),
        keyOrder := eq.keyOrder ++ ["color"] }
    | some c => .error (.duplicateColor c upper)
  else do
    let _ ← checkBanned segment "graph configuration"
    match eq.restriction with
    | none =>
      .ok { eq with restriction := some ("\x7b" ++ segment ++ "\x7d"),
                    keyOrder := eq.keyOrder ++ ["restriction"] }
    | some r =>
      .ok { eq with restriction := some (r ++ ("\x7b" ++ segment ++ "\x7d")) }

/-- Processing of one nonempty equation line: split on `|`, the first segment
is the (banned-character-checked) expression, the rest go through
`processSegment`. -/
def processLine (line : List Char) : Except ParseError Equation :=
  let segs := splitByPred (fun c => c = '|') line
  let e := String.mk (segs.headD [])
  do
    let _ ← checkBanned e "graph equation"
    segs.tail.foldlM (fun acc seg => processSegment acc (String.mk seg)) { equation := e }

/-- The non-empty lines of a body segment (`split("\n").filter(Boolean)`). -/
def bodyLines (body : List Char) : List (List Char) :=
  (splitByPred (fun c => c = '\n') body).filter (fun l => !l.isEmpty)

/-- Equation processing for a whole body segment. -/
def parseBody (body : List Char) : Except ParseError (List Equation) :=
  (bodyLines body).mapM processLine

/-- One step of the settings `reduce`: the key must be recognised
(`FIELD_DEFAULTS.hasOwnProperty`, case-sensitive), the value must be nonempty
(JS truthiness of a string) and must `parseInt` to a number; all recognised
fields are of numeric type.  `st` is the accumulated overrides object,
modelled as an assoc list with JS property-update semantics. -/
def setKeyI (st : List (String × Int)) (k : String) (n : Int) : List (String × Int) :=
  if st.any (fun p => p.1 = k) then st.map (fun p => if p.1 = k then (k, n) else p)
  else st ++ [(k, n)]

def applySetting (st : List (String × Int)) (kv : String × String) :
    Except ParseError (List (String × Int)) :=
  if recognizedKeys.contains kv.1 then
    if kv.2 = "" then .error (.missingFieldValue kv.1)
    else
      match parseIntJS kv.2 with
      | none => .error (.invalidFieldType kv.1)
      | some n => .ok (setKeyI st kv.1 n)
  else .error (.unrecognizedField kv.1)

/-- JS `setting.split("=")` followed by `[key, ...value]` with
`value.join("=")`: split on the first `=`. -/
def keyValue (setting : String) : String × String :=
  match splitByPred (fun c => c = '=') setting.data with
  | [] => ("", "")
  | k :: rest => (String.mk k, String.mk (List.intercalate ['='] rest))

/-- The whole field-settings block: split on `;` or newline, trim, drop empty
entries, split each on the first `=`, and fold through `applySetting`.
(The source splits on the regex `/[;\n]+/`; splitting on single separator
characters yields the same entries once the empty strings are filtered.) -/
def parseSettingsBlock (block : String) : Except ParseError (List (String × Int)) :=
  let entries :=
    (((splitByPred (fun c => c = ';' ∨ c = '\n') block.data).map
        (fun l => jsTrim (String.mk l))).filter (fun s => s ≠ ""))
  (entries.map keyValue).foldlM applySetting []

/-- The final `fields` object,
`Object.assign(Object.assign({}, FIELD_DEFAULTS), fields)`: every recognised
key is present, in the fixed `FIELD_DEFAULTS` insertion order, with the
override value when one was collected. -/
@[ext]
structure Fields where
  width : Int
  height : Int
  left : Int
  right : Int
  bottom : Int
  top : Int
deriving DecidableEq, Repr

def mkFields (ov : List (String × Int)) : Fields :=
  { width := (ov.lookup "width").getD 600
    height := (ov.lookup "height").getD 400
    left := (ov.lookup "left").getD (-10)
    right := (ov.lookup "right").getD 10
    bottom := (ov.lookup "bottom").getD (-7)
    top := (ov.lookup "top").getD 7 }

def defaultFields : Fields := mkFields []

/-- Source `Dsl.assert_sanity`: boundaries must be strictly ordered. -/
def assertSanity (f : Fields) : Except ParseError Unit :=
  if f.left ≥ f.right then .error (.invalidBoundaryLR f.left f.right)
  else if f.bottom ≥ f.top then .error (.invalidBoundaryBT f.bottom f.top)
  else .ok ()

/-- The validated `Dsl` object: `equations` then `fields`, in that property
order (the `hash` property is assigned only after `JSON.stringify(this)` runs,
so it does not participate in the serialization; it is modelled as the derived
`dslHash` below). -/
@[ext]
structure Dsl where
  equations : List Equation
  fields : Fields
deriving DecidableEq, Repr

/-- The `Dsl` constructor: patch the defaults, check sanity, build the object. -/
def mkDsl (eqs : List Equation) (ov : List (String × Int)) : Except ParseError Dsl :=
  match assertSanity (mkFields ov) with
  | .error e => .error e
  | .ok _ => .ok { equations := eqs, fields := mkFields ov }

/-- Source `Dsl.parse(source)`.  The `switch` on `split.length`: length 1 is body
only, length 2 is settings then body, length 0 (dead code, `split` never
returns an empty array) yields no equations and no overrides, and any other
length leaves `equations` undefined, which triggers the
`"Too many segments"` throw. -/
def parse (source : String) : Except ParseError Dsl :=
  match splitDashes source.data with
  | [] => (parseBody [] ) >>= fun eqs => mkDsl eqs []
  | [body] => parseBody body >>= fun eqs => mkDsl eqs []
  | [settings, body] =>
    parseSettingsBlock (String.mk settings) >>= fun ov =>
      parseBody body >>= fun eqs => mkDsl eqs ov
  | _ => .error .tooManySegments

/-! ## The fingerprint (`crypto.createHash("sha256").update(JSON.stringify(this))`)

`JSON.stringify` is modelled character-exactly: property order is insertion
order, strings are escaped per the JSON algorithm (`"`, `\`, the named control
escapes, `\u00XX` for other control characters), integers print in decimal.
The SHA-256 digest itself is idealised as an injective function of its input —
the spec treats collisions as negligible and every claim about the fingerprint
is an equality or inequality of digests — so the digest is represented by the
canonical serialization it is computed from. -/

def digitChar (d : Nat) : Char := Char.ofNat (48 + d)

/-- Lowercase hex digit, as produced by `JSON.stringify`'s `\u00XX` escapes. -/
def hexDigitChar (n : Nat) : Char :=
  if n < 10 then Char.ofNat (48 + n) else Char.ofNat (87 + n)

/-- Decimal digits of `n`, most significant first (fuel-indexed so that the
recursion is structural and kernel-reducible). -/
def natCharsAux : Nat → Nat → List Char
  | 0, _ => []
  | fuel + 1, n => if n = 0 then [] else natCharsAux fuel (n / 10) ++ [digitChar (n % 10)]

def natChars (n : Nat) : List Char :=
  if n = 0 then [digitChar 0] else natCharsAux (n + 1) n

/-- JS decimal printing of an integer. -/
def intChars (i : Int) : List Char :=
  if i < 0 then '-' :: natChars i.natAbs else natChars i.toNat

/-- The double-quote and backslash characters (by code point). -/
def qu : Char := Char.ofNat 34
def bsl : Char := Char.ofNat 92

/-- JSON escaping of one character. -/
def escapeChar (c : Char) : List Char :=
  if c = qu then [bsl, qu]
  else if c = bsl then [bsl, bsl]
  else if c = '\n' then [bsl, 'n']
  else if c = '\r' then [bsl, 'r']
  else if c = '\t' then [bsl, 't']
  else if c = Char.ofNat 8 then [bsl, 'b']
  else if c = Char.ofNat 12 then [bsl, 'f']
  else if c.toNat < 32 then
    [bsl, 'u', '0', '0', hexDigitChar (c.toNat / 16), hexDigitChar (c.toNat % 16)]
  else [c]

def escapeChars : List Char → List Char
  | [] => []
  | c :: t => escapeChar c ++ escapeChars t

/-- A JSON string literal: quote, escaped content, quote. -/
def jsonStringL (s : String) : List Char :=
  qu :: (escapeChars s.data ++ [qu])

/-- The characters of a (escape-free) literal piece of the serialization. -/
def lit (s : String) : List Char := s.data

/-- The value `JSON.stringify` reads for an optional equation property (only
consulted for keys present in `keyOrder`, where the property is a string). -/
def modValue (e : Equation) (k : String) : String :=
  if k = "style" then e.style.getD ""
  else if k = "color" then e.color.getD ""
  else e.restriction.getD ""

/-- The serialized optional properties of an equation object, in insertion
order. -/
def serializeMods (e : Equation) : List String → List Char
  | [] => []
  | k :: t =>
    ',' :: (qu :: (lit k ++ (qu :: (':' :: (jsonStringL (modValue e k) ++ serializeMods e t)))))

/-- Serialization of one equation object by `JSON.stringify`: `equation` first, then the
optional properties in insertion order. -/
def serializeEquation (e : Equation) : List Char :=
  '\x7b' :: (lit "\"equation\":" ++ (jsonStringL e.equation ++ (serializeMods e e.keyOrder ++ ['\x7d'])))

/-- Serialization of the equations array contents (comma-separated). -/
def serializeEqList : List Equation → List Char
  | [] => []
  | [e] => serializeEquation e
  | e :: e2 :: t => serializeEquation e ++ (',' :: serializeEqList (e2 :: t))

/-- Serialization of the fields object by `JSON.stringify`: all six keys, in the fixed
`FIELD_DEFAULTS` insertion order. -/
def serializeFields (f : Fields) : List Char :=
  lit "\x7b\"width\":" ++ (intChars f.width ++
  (',' :: (lit "\"height\":" ++ (intChars f.height ++
  (',' :: (lit "\"left\":" ++ (intChars f.left ++
  (',' :: (lit "\"right\":" ++ (intChars f.right ++
  (',' :: (lit "\"bottom\":" ++ (intChars f.bottom ++
  (',' :: (lit "\"top\":" ++ (intChars f.top ++ ['\x7d']))))))))))))))))

/-- Serialization `JSON.stringify(this)` in the `Dsl` constructor: at that point the object
has exactly the properties `equations` and `fields`, in that insertion order
(`hash` is assigned only afterwards). -/
def serializeDsl (d : Dsl) : List Char :=
  lit "\x7b\"equations\":[" ++
    (serializeEqList d.equations ++
      (']' :: (lit ",\"fields\":" ++ (serializeFields d.fields ++ ['\x7d']))))

/-- The SHA-256 hex digest, idealised as an injective digest function and
represented by its input (see the section comment): two fingerprints are
equal exactly when the canonical serializations agree. -/
def sha256Hex (s : String) : String := s

/-- Fingerprint `this.hash` of a constructed `Dsl`. -/
def dslHash (d : Dsl) : String := sha256Hex (String.mk (serializeDsl d))

/-! ## The renderer (`Renderer.render` in main.js)

The DOM element `el` is a list of rendered nodes, the in-memory cache
`plugin.graph_cache` and the filesystem are assoc lists, and the
`message` listener count is explicit.  `render` splits into the synchronous
phase (cache check, iframe creation, listener registration) and the
`handler` function invoked per incoming message. -/

inductive CacheLocation where
  | memory
  | filesystem
deriving DecidableEq, Repr

/-- The `CacheSettings` object.  In the bundled `Settings` interface this
object is always present (`settings.cache.directory` is read unconditionally
before any truthiness check), so the source's `if (settings.cache)` guards
test a truthy object — they do NOT read `settings.cache.enabled`. -/
structure CacheSettings where
  enabled : Bool
  location : CacheLocation
  directory : Option String
deriving DecidableEq, Repr

structure Settings where
  cache : CacheSettings
deriving DecidableEq, Repr

/-- POSIX `path.isAbsolute`. -/
def isAbsolutePath (p : String) : Bool :=
  match p.data with
  | c :: _ => c = '/'
  | [] => false

/-- JS `path.join` of two pieces (idealised as separator concatenation). -/
def joinPath (a b : String) : String := a ++ "/" ++ b

/-- Cache directory resolution: explicit directory (absolute used verbatim,
relative joined to the vault root), else the OS temporary directory. -/
def cacheDirOf (s : Settings) (vaultRoot tmpdir : String) : String :=
  match s.cache.directory with
  | some d => if d = "" then tmpdir else if isAbsolutePath d then d else joinPath vaultRoot d
  | none => tmpdir

/-- Cache file `desmos-graph-<hash>.png` inside the cache directory. -/
def cacheTargetOf (s : Settings) (vaultRoot tmpdir hash : String) : String :=
  joinPath (cacheDirOf s vaultRoot tmpdir) ("desmos-graph-" ++ hash ++ ".png")

inductive Elem where
  | img (src : String)
  | iframe
  | errorDiv (msg : String)
deriving DecidableEq, Repr

/-- Base-64 transcoding of cached file bytes (content-preserving encoding,
irrelevant to the claims, modelled as a tagged wrapper). -/
def toBase64DataUrl (data : String) : String := "data:image/png;base64," ++ data

/-- Stripping `data.replace(/^data:image\/png;base64,/, "")` before the cache write. -/
def stripDataUrl (data : String) : String :=
  let p := "data:image/png;base64,"
  if p.data.isPrefixOf data.data then String.mk (data.data.drop p.data.length) else data

/-- Result of the synchronous phase of `Renderer.render`. -/
structure SyncResult where
  el : List Elem
  listeners : Nat
  rendererInvoked : Bool
deriving DecidableEq, Repr

/-- Synchronous phase of `Renderer.render`: compute the cache target, then —
inside `if (settings.cache)`, which always holds because `settings.cache` is
the (truthy) cache-settings object, `enabled` never being consulted — return
the cached image on a memory or filesystem hit without creating the iframe;
otherwise append the iframe and register the single `message` listener. -/
def renderSync (hash : String) (s : Settings) (graphCache : List (String × String))
    (fsFiles : List (String × String)) (vaultRoot tmpdir : String) : SyncResult :=
  let target := cacheTargetOf s vaultRoot tmpdir hash
  if s.cache.location = CacheLocation.memory ∧ (graphCache.lookup hash).isSome then
    { el := [.img ((graphCache.lookup hash).getD "")], listeners := 0, rendererInvoked := false }
  else if s.cache.location = CacheLocation.filesystem ∧ (fsFiles.lookup target).isSome then
    { el := [.img (toBase64DataUrl ((fsFiles.lookup target).getD ""))],
      listeners := 0, rendererInvoked := false }
  else
    { el := [.iframe], listeners := 1, rendererInvoked := true }

/-- A `message` event as inspected by the handler. -/
structure Msg where
  origin : String
  t : String
  hash : String
  d : String
  data : String
deriving DecidableEq, Repr

/-- The per-request render state acted on by the `message` handler. -/
structure RState where
  el : List Elem
  listeners : Nat
  resolved : Bool
  graphCache : List (String × String)
  fsFiles : List (String × String)
  notices : List String
deriving DecidableEq, Repr

def setKeyS (st : List (String × String)) (k v : String) : List (String × String) :=
  if st.any (fun p => p.1 = k) then st.map (fun p => if p.1 = k then (k, v) else p)
  else st ++ [(k, v)]

/-- The `handler` closure of `Renderer.render`, one invocation per incoming
`message` event.  On a matching message (origin, type tag `t`, fingerprint
`hash`) the element is emptied; an `"error"` payload renders the error `div`;
a `"render"` payload deregisters the listener, appends the image, resolves
the promise, and — inside the always-true `if (settings.cache)` — stores the
image in the in-memory map or, when the cache directory exists, writes the
file (a missing directory produces a notice instead). -/
def handlerStep (hash : String) (s : Settings) (cacheDir cacheTarget : String)
    (dirExists : Bool) (st : RState) (m : Msg) : RState :=
  if m.origin = "app://obsidian.md" ∧ m.t = "desmos-graph" ∧ m.hash = hash then
    let st1 := { st with el := [] }
    let st2 := if m.d = "error" then { st1 with el := [.errorDiv m.data] } else st1
    if m.d = "render" then
      let st3 := { st2 with
        listeners := st2.listeners - 1
        el := st2.el ++ [Elem.img m.data]
        resolved := true }
      if s.cache.location = CacheLocation.memory then
        { st3 with graphCache := setKeyS st3.graphCache hash m.data }
      else if dirExists then
        { st3 with fsFiles := setKeyS st3.fsFiles cacheTarget (stripDataUrl m.data) }
      else
        { st3 with notices := st3.notices ++ ["cache directory not found: " ++ cacheDir] }
    else st2
  else st

/-! ## Injectivity of the canonical serialization

The fingerprint is the digest of `serializeDsl`; to prove that any
content difference changes it we show `serializeDsl` is injective on
well-formed `Dsl` values, by round-tripping through decoders. -/

/-- Fuel-indexed decoder for the escaped-string framing argument. -/
def decodeStrAux : Nat → List Char → Option (List Char × List Char)
  | 0, _ => none
  | _ + 1, [] => none
  | fuel + 1, c :: rest =>
    if c = qu then some ([], rest)
    else if c = bsl then
      match rest with
      | [] => none
      | e :: rest2 =>
        if e = qu then (decodeStrAux fuel rest2).map (fun p => (qu :: p.1, p.2))
        else if e = bsl then (decodeStrAux fuel rest2).map (fun p => (bsl :: p.1, p.2))
        else if e = 'n' then (decodeStrAux fuel rest2).map (fun p => ('\n' :: p.1, p.2))
        else if e = 'r' then (decodeStrAux fuel rest2).map (fun p => ('\r' :: p.1, p.2))
        else if e = 't' then (decodeStrAux fuel rest2).map (fun p => ('\t' :: p.1, p.2))
        else if e = 'b' then (decodeStrAux fuel rest2).map (fun p => (Char.ofNat 8 :: p.1, p.2))
        else if e = 'f' then (decodeStrAux fuel rest2).map (fun p => (Char.ofNat 12 :: p.1, p.2))
        else if e = 'u' then
          match rest2 with
          | z1 :: z2 :: h1 :: h2 :: rest3 =>
            if z1 = '0' ∧ z2 = '0' then
              match hexDigitValue h1, hexDigitValue h2 with
              | some a, some b =>
                (decodeStrAux fuel rest3).map (fun p => (Char.ofNat (16 * a + b) :: p.1, p.2))
              | _, _ => none
            else none
          | _ => none
        else none
    else (decodeStrAux fuel rest).map (fun p => (c :: p.1, p.2))

lemma hexDigitValue_hexDigitChar (n : Nat) (h : n < 16) :
    hexDigitValue (hexDigitChar n) = some n := by
  interval_cases n <;> decide

lemma escape_roundtrip : ∀ (s r : List Char) (fuel : Nat), s.length < fuel →
    decodeStrAux fuel (escapeChars s ++ (qu :: r)) = some (s, r) := by
  intro s
  induction s with
  | nil =>
    intro r fuel hf
    cases fuel with
    | zero => omega
    | succ f => simp +decide [escapeChars, decodeStrAux]
  | cons c t ih =>
    intro r fuel hf
    cases fuel with
    | zero => omega
    | succ f =>
    have hIH := ih r f (by simpa using Nat.lt_of_succ_lt_succ hf)
    by_cases h1 : c = qu
    · simp +decide [escapeChars, escapeChar, h1, decodeStrAux, hIH]
    · by_cases h2 : c = bsl
      · simp +decide [escapeChars, escapeChar, h1, h2, decodeStrAux, hIH]
      · by_cases h3 : c = '\n'
        · simp +decide [escapeChars, escapeChar, h1, h2, h3, decodeStrAux, hIH]
        · by_cases h4 : c = '\r'
          · simp +decide [escapeChars, escapeChar, h1, h2, h3, h4, decodeStrAux, hIH]
          · by_cases h5 : c = '\t'
            · simp +decide [escapeChars, escapeChar, h1, h2, h3, h4, h5, decodeStrAux, hIH]
            · by_cases h6 : c = Char.ofNat 8
              · simp +decide [escapeChars, escapeChar, h1, h2, h3, h4, h5, h6, decodeStrAux, hIH]
              · by_cases h7 : c = Char.ofNat 12
                · simp +decide [escapeChars, escapeChar, h1, h2, h3, h4, h5, h6, h7, decodeStrAux, hIH]
                · by_cases h8 : c.toNat < 32
                  · have hd : c.toNat / 16 < 16 := by omega
                    have hm : c.toNat % 16 < 16 := by omega
                    have hrw : (16 : Nat) * (c.toNat / 16) + c.toNat % 16 = c.toNat :=
                      Nat.div_add_mod _ 16
                    simp +decide [escapeChars, escapeChar, h1, h2, h3, h4, h5, h6, h7, h8, decodeStrAux,
                      hIH, hexDigitValue_hexDigitChar _ hd, hexDigitValue_hexDigitChar _ hm,
                      hrw, Char.ofNat_toNat]
                  · simp +decide [escapeChars, escapeChar, h1, h2, h3, h4, h5, h6, h7, h8, decodeStrAux, hIH]

lemma escapeChars_framing {s1 s2 r1 r2 : List Char}
    (h : escapeChars s1 ++ (qu :: r1) = escapeChars s2 ++ (qu :: r2)) :
    s1 = s2 ∧ r1 = r2 := by
  have e1 := escape_roundtrip s1 r1 (s1.length + s2.length + 1) (by omega)
  have e2 := escape_roundtrip s2 r2 (s1.length + s2.length + 1) (by omega)
  rw [h] at e1
  rw [e2] at e1
  simpa using e1.symm

lemma jsonStringL_framing {s1 s2 : String} {r1 r2 : List Char}
    (h : jsonStringL s1 ++ r1 = jsonStringL s2 ++ r2) :
    s1 = s2 ∧ r1 = r2 := by
  unfold jsonStringL at h
  simp only [List.cons_append, List.append_assoc, List.singleton_append, List.cons.injEq] at h
  obtain ⟨d, r⟩ := escapeChars_framing h.2
  exact ⟨String.ext d, r⟩

/-! Integer decimal printing and its framing. -/

def decodeNatL (l : List Char) : Option (Nat × List Char) :=
  let ds := l.takeWhile Char.isDigit
  if ds.isEmpty then none else some (decDigitsValue ds, l.drop ds.length)

def decodeIntL : List Char → Option (Int × List Char)
  | [] => none
  | c :: rest =>
    if c = '-' then (decodeNatL rest).map (fun p => (-(p.1 : Int), p.2))
    else (decodeNatL (c :: rest)).map (fun p => ((p.1 : Int), p.2))

lemma digitChar_isDigit {d : Nat} (h : d < 10) : (digitChar d).isDigit = true := by
  interval_cases d <;> decide

lemma digitChar_toNat {d : Nat} (h : d < 10) : (digitChar d).toNat - 48 = d := by
  interval_cases d <;> decide

lemma natCharsAux_isDigit : ∀ (fuel n : Nat), ∀ c ∈ natCharsAux fuel n, c.isDigit = true := by
  intro fuel
  induction fuel with
  | zero => intro n c hc; simp [natCharsAux] at hc
  | succ f ih =>
    intro n c hc
    by_cases hn : n = 0
    · simp [natCharsAux, hn] at hc
    · simp only [natCharsAux, hn, if_false, List.mem_append, List.mem_singleton] at hc
      rcases hc with hc | hc
      · exact ih _ _ hc
      · subst hc; exact digitChar_isDigit (Nat.mod_lt _ (by omega))

lemma natChars_isDigit (n : Nat) : ∀ c ∈ natChars n, c.isDigit = true := by
  intro c hc
  by_cases hn : n = 0
  · simp [natChars, hn] at hc; subst hc; decide
  · simp only [natChars, hn, if_false] at hc
    exact natCharsAux_isDigit _ _ _ hc

lemma natChars_ne_nil (n : Nat) : natChars n ≠ [] := by
  by_cases hn : n = 0
  · simp [natChars, hn]
  · obtain ⟨f, hf⟩ : ∃ f, n + 1 = f + 1 := ⟨n, rfl⟩
    simp [natChars, hn, hf, natCharsAux]

lemma foldl_natCharsAux : ∀ (fuel n : Nat), n ≤ fuel → ∀ (a : Nat),
    List.foldl (fun a c => a * 10 + (c.toNat - 48)) a (natCharsAux fuel n)
      = a * 10 ^ (natCharsAux fuel n).length + n := by
  intro fuel
  induction fuel with
  | zero =>
    intro n hn a
    interval_cases n
    simp [natCharsAux]
  | succ f ih =>
    intro n hn a
    by_cases h0 : n = 0
    · simp [natCharsAux, h0]
    · have hrec : n / 10 ≤ f := by
        have : n / 10 < n := Nat.div_lt_self (by omega) (by omega)
        omega
      simp only [natCharsAux, h0, if_false, List.foldl_append, List.foldl_cons, List.foldl_nil,
        List.length_append, List.length_cons, List.length_nil]
      rw [ih _ hrec a]
      rw [digitChar_toNat (Nat.mod_lt _ (by omega))]
      have := Nat.div_add_mod n 10
      ring_nf
      omega

lemma decDigitsValue_natChars (n : Nat) : decDigitsValue (natChars n) = n := by
  by_cases hn : n = 0
  · simp [natChars, hn, decDigitsValue, digitChar]
  · simp only [natChars, hn, if_false, decDigitsValue]
    rw [foldl_natCharsAux (n + 1) n (by omega) 0]
    simp

lemma takeWhile_all_append {p : Char → Bool} {l r : List Char}
    (hl : ∀ x ∈ l, p x = true) (hr : ∀ c, r.head? = some c → p c = false) :
    (l ++ r).takeWhile p = l := by
  induction l with
  | nil =>
    cases r with
    | nil => rfl
    | cons c t => simp [List.takeWhile, hr c rfl]
  | cons x xs ih =>
    simp only [List.cons_append, List.takeWhile_cons, hl x (List.mem_cons_self _ _), if_true]
    rw [ih (fun y hy => hl y (List.mem_cons_of_mem _ hy))]

lemma decodeNatL_roundtrip (n : Nat) (r : List Char)
    (hr : ∀ c, r.head? = some c → c.isDigit = false) :
    decodeNatL (natChars n ++ r) = some (n, r) := by
  have htw : (natChars n ++ r).takeWhile Char.isDigit = natChars n :=
    takeWhile_all_append (natChars_isDigit n) hr
  simp only [decodeNatL, htw]
  rw [if_neg (by simpa using natChars_ne_nil n)]
  rw [decDigitsValue_natChars, List.drop_left]

lemma natChars_head_digit (n : Nat) : ∀ c, (natChars n).head? = some c → c.isDigit = true := by
  intro c hc
  apply natChars_isDigit n
  cases h : natChars n with
  | nil => exact absurd h (natChars_ne_nil n)
  | cons a t => rw [h] at hc; simp at hc; subst hc; simp [h]

lemma decodeIntL_roundtrip (i : Int) (r : List Char)
    (hr : ∀ c, r.head? = some c → c.isDigit = false) :
    decodeIntL (intChars i ++ r) = some (i, r) := by
  by_cases hi : i < 0
  · simp only [intChars, hi, if_true, List.cons_append, decodeIntL, if_pos rfl]
    rw [decodeNatL_roundtrip _ _ hr]
    simp only [Option.map_some']
    congr 1
    have : (i.natAbs : Int) = -i := by omega
    rw [this]; simp
  · simp only [intChars, hi, if_false]
    cases h : natChars i.toNat with
    | nil => exact absurd h (natChars_ne_nil _)
    | cons a t =>
      have ha : a.isDigit = true := by
        apply natChars_head_digit i.toNat; rw [h]; rfl
      have hne : ¬ a = '-' := by
        intro hcon; subst hcon; simp at ha
      simp only [List.cons_append, decodeIntL, if_neg hne]
      have := decodeNatL_roundtrip i.toNat r hr
      rw [h] at this
      simp only [List.cons_append] at this
      rw [this]
      simp only [Option.map_some']
      congr 1
      have : (i.toNat : Int) = i := by omega
      rw [this]

lemma intChars_framing {i1 i2 : Int} {r1 r2 : List Char}
    (h : intChars i1 ++ r1 = intChars i2 ++ r2)
    (h1 : ∀ c, r1.head? = some c → c.isDigit = false)
    (h2 : ∀ c, r2.head? = some c → c.isDigit = false) :
    i1 = i2 ∧ r1 = r2 := by
  have e1 := decodeIntL_roundtrip i1 r1 h1
  have e2 := decodeIntL_roundtrip i2 r2 h2
  rw [h, e2] at e1
  simpa using e1.symm

/-- Well-formedness of an `Equation` as produced by the parser: `keyOrder`
names exactly the optional properties that are present. -/
def EqWF (e : Equation) : Prop :=
  (∀ k ∈ e.keyOrder, k = "style" ∨ k = "color" ∨ k = "restriction") ∧
  (e.style.isSome = true ↔ "style" ∈ e.keyOrder) ∧
  (e.color.isSome = true ↔ "color" ∈ e.keyOrder) ∧
  (e.restriction.isSome = true ↔ "restriction" ∈ e.keyOrder)

instance : DecidablePred EqWF := fun e => by
  unfold EqWF; infer_instance

def DslWF (d : Dsl) : Prop := ∀ e ∈ d.equations, EqWF e

instance : DecidablePred DslWF := fun d => by
  unfold DslWF; infer_instance

lemma serializeMods_framing {e1 e2 : Equation} :
    ∀ (ks1 ks2 : List String) (r1 r2 : List Char),
    (∀ k ∈ ks1, k = "style" ∨ k = "color" ∨ k = "restriction") →
    (∀ k ∈ ks2, k = "style" ∨ k = "color" ∨ k = "restriction") →
    serializeMods e1 ks1 ++ ('\x7d' :: r1) = serializeMods e2 ks2 ++ ('\x7d' :: r2) →
    ks1 = ks2 ∧ (∀ k ∈ ks1, modValue e1 k = modValue e2 k) ∧ r1 = r2 := by
  intro ks1
  induction ks1 with
  | nil =>
    intro ks2 r1 r2 hk1 hk2 h
    cases ks2 with
    | nil =>
      simp only [serializeMods, List.nil_append, List.cons.injEq] at h
      exact ⟨rfl, by simp, h.2⟩
    | cons k2 t2 =>
      simp only [serializeMods, List.nil_append, List.cons_append, List.cons.injEq] at h
      exact absurd h.1 (by decide)
  | cons k1 t1 ih =>
    intro ks2 r1 r2 hk1 hk2 h
    cases ks2 with
    | nil =>
      simp only [serializeMods, List.nil_append, List.cons_append, List.cons.injEq] at h
      exact absurd h.1 (by decide)
    | cons k2 t2 =>
      simp only [serializeMods, List.cons_append, List.append_assoc, List.cons.injEq] at h
      obtain ⟨-, -, h⟩ := h
      have hmem1 := hk1 k1 (List.mem_cons_self _ _)
      have hmem2 := hk2 k2 (List.mem_cons_self _ _)
      have hstyle : lit "style" = 's' :: lit "tyle" := rfl
      have hcolor : lit "color" = 'c' :: lit "olor" := rfl
      have hrestr : lit "restriction" = 'r' :: lit "estriction" := rfl
      have step :
          k1 = k2 ∧
            jsonStringL (modValue e1 k1) ++ (serializeMods e1 t1 ++ ('\x7d' :: r1)) =
              jsonStringL (modValue e2 k2) ++ (serializeMods e2 t2 ++ ('\x7d' :: r2)) := by
        rcases hmem1 with h1 | h1 | h1 <;> rcases hmem2 with h2 | h2 | h2 <;>
          subst h1 <;> subst h2 <;>
          first
            | exact ⟨rfl, by
                have h' := List.append_cancel_left h
                simpa using h'⟩
            | (exfalso
               simp only [hstyle, hcolor, hrestr, List.cons_append, List.cons.injEq] at h
               exact absurd h.1 (by decide))
      obtain ⟨hkeq, h⟩ := step
      obtain ⟨hv, hrest⟩ := jsonStringL_framing h
      obtain ⟨hks, hvals, hr⟩ := ih t2 r1 r2
        (fun k hk => hk1 k (List.mem_cons_of_mem _ hk))
        (fun k hk => hk2 k (List.mem_cons_of_mem _ hk)) hrest
      subst hkeq
      refine ⟨by rw [hks], ?_, hr⟩
      intro k hk
      rcases List.mem_cons.mp hk with hk | hk
      · subst hk; exact hv
      · exact hvals k hk

lemma option_eq_of_getD {a b : Option String}
    (ha : a.isSome = true) (hb : b.isSome = true) (h : a.getD "" = b.getD "") : a = b := by
  cases a with
  | none => simp at ha
  | some va =>
    cases b with
    | none => simp at hb
    | some vb => simpa using h

lemma eq_of_mods_eq {e1 e2 : Equation} (w1 : EqWF e1) (w2 : EqWF e2)
    (heq : e1.equation = e2.equation) (hks : e1.keyOrder = e2.keyOrder)
    (hv : ∀ k ∈ e1.keyOrder, modValue e1 k = modValue e2 k) : e1 = e2 := by
  have hstyle : e1.style = e2.style := by
    by_cases hm : "style" ∈ e1.keyOrder
    · have h1 : e1.style.isSome = true := w1.2.1.mpr hm
      have h2 : e2.style.isSome = true := w2.2.1.mpr (by rw [← hks]; exact hm)
      have hval := hv _ hm
      simp [modValue] at hval
      exact option_eq_of_getD h1 h2 hval
    · have h1 : e1.style = none := by
        cases hs : e1.style with
        | none => rfl
        | some v => exact absurd (w1.2.1.mp (by simp [hs])) hm
      have h2 : e2.style = none := by
        cases hs : e2.style with
        | none => rfl
        | some v => exact absurd (by rw [hks]; exact w2.2.1.mp (by simp [hs])) hm
      rw [h1, h2]
  have hcolor : e1.color = e2.color := by
    by_cases hm : "color" ∈ e1.keyOrder
    · have h1 : e1.color.isSome = true := w1.2.2.1.mpr hm
      have h2 : e2.color.isSome = true := w2.2.2.1.mpr (by rw [← hks]; exact hm)
      have hval := hv _ hm
      simp [modValue] at hval
      exact option_eq_of_getD h1 h2 hval
    · have h1 : e1.color = none := by
        cases hs : e1.color with
        | none => rfl
        | some v => exact absurd (w1.2.2.1.mp (by simp [hs])) hm
      have h2 : e2.color = none := by
        cases hs : e2.color with
        | none => rfl
        | some v => exact absurd (by rw [hks]; exact w2.2.2.1.mp (by simp [hs])) hm
      rw [h1, h2]
  have hrestr : e1.restriction = e2.restriction := by
    by_cases hm : "restriction" ∈ e1.keyOrder
    · have h1 : e1.restriction.isSome = true := w1.2.2.2.mpr hm
      have h2 : e2.restriction.isSome = true := w2.2.2.2.mpr (by rw [← hks]; exact hm)
      have hval := hv _ hm
      simp [modValue] at hval
      exact option_eq_of_getD h1 h2 hval
    · have h1 : e1.restriction = none := by
        cases hs : e1.restriction with
        | none => rfl
        | some v => exact absurd (w1.2.2.2.mp (by simp [hs])) hm
      have h2 : e2.restriction = none := by
        cases hs : e2.restriction with
        | none => rfl
        | some v => exact absurd (by rw [hks]; exact w2.2.2.2.mp (by simp [hs])) hm
      rw [h1, h2]
  ext1
  · exact heq
  · exact hstyle
  · exact hcolor
  · exact hrestr
  · exact hks

lemma serializeEquation_framing {e1 e2 : Equation} {r1 r2 : List Char}
    (w1 : EqWF e1) (w2 : EqWF e2)
    (h : serializeEquation e1 ++ r1 = serializeEquation e2 ++ r2) : e1 = e2 ∧ r1 = r2 := by
  simp only [serializeEquation, List.cons_append, List.append_assoc, List.singleton_append,
    List.cons.injEq, true_and] at h
  have h := List.append_cancel_left h
  obtain ⟨heq, h⟩ := jsonStringL_framing h
  obtain ⟨hks, hvals, hr⟩ := serializeMods_framing _ _ _ _ w1.1 w2.1 h
  exact ⟨eq_of_mods_eq w1 w2 heq hks hvals, hr⟩

lemma serializeEqList_framing :
    ∀ (l1 l2 : List Equation) (r1 r2 : List Char),
    (∀ e ∈ l1, EqWF e) → (∀ e ∈ l2, EqWF e) →
    serializeEqList l1 ++ (']' :: r1) = serializeEqList l2 ++ (']' :: r2) →
    l1 = l2 ∧ r1 = r2 := by
  intro l1
  induction l1 with
  | nil =>
    intro l2 r1 r2 hw1 hw2 h
    cases l2 with
    | nil => simpa using h
    | cons e2 t2 =>
      exfalso
      simp only [serializeEqList, List.nil_append] at h
      cases t2 with
      | nil =>
        simp only [serializeEqList, serializeEquation, List.cons_append, List.cons.injEq] at h
        exact absurd h.1 (by decide)
      | cons e3 t3 =>
        simp only [serializeEqList, serializeEquation, List.cons_append, List.append_assoc,
          List.cons.injEq] at h
        exact absurd h.1 (by decide)
  | cons e1 t1 ih =>
    intro l2 r1 r2 hw1 hw2 h
    cases l2 with
    | nil =>
      exfalso
      simp only [serializeEqList, List.nil_append] at h
      cases t1 with
      | nil =>
        simp only [serializeEqList, serializeEquation, List.cons_append, List.cons.injEq] at h
        exact absurd h.1 (by decide)
      | cons e3 t3 =>
        simp only [serializeEqList, serializeEquation, List.cons_append, List.append_assoc,
          List.cons.injEq] at h
        exact absurd h.1 (by decide)
    | cons e2 t2 =>
      have hw1e := hw1 e1 (List.mem_cons_self _ _)
      have hw2e := hw2 e2 (List.mem_cons_self _ _)
      cases t1 with
      | nil =>
        cases t2 with
        | nil =>
          simp only [serializeEqList] at h
          obtain ⟨he, hr⟩ := serializeEquation_framing hw1e hw2e h
          simp only [List.cons.injEq] at hr
          exact ⟨by rw [he], hr.2⟩
        | cons e3 t3 =>
          exfalso
          simp only [serializeEqList, List.append_assoc, List.cons_append] at h
          obtain ⟨-, hr⟩ := serializeEquation_framing hw1e hw2e h
          simp only [List.cons.injEq] at hr
          exact absurd hr.1 (by decide)
      | cons e3 t3 =>
        cases t2 with
        | nil =>
          exfalso
          simp only [serializeEqList, List.append_assoc, List.cons_append] at h
          obtain ⟨-, hr⟩ := serializeEquation_framing hw1e hw2e h
          simp only [List.cons.injEq] at hr
          exact absurd hr.1 (by decide)
        | cons e4 t4 =>
          simp only [serializeEqList, List.append_assoc, List.cons_append] at h
          obtain ⟨he, hr⟩ := serializeEquation_framing hw1e hw2e h
          simp only [List.cons.injEq] at hr
          obtain ⟨hl, hr2⟩ := ih (e4 :: t4) r1 r2
            (fun e he => hw1 e (List.mem_cons_of_mem _ he))
            (fun e he => hw2 e (List.mem_cons_of_mem _ he))
            (by simpa [serializeEqList] using hr.2)
          exact ⟨by rw [he, hl], hr2⟩

lemma nonDigitHead {a : Char} (h : a.isDigit = false) (t : List Char) :
    ∀ c, (a :: t).head? = some c → c.isDigit = false := by
  intro c hc
  simp only [List.head?_cons, Option.some.injEq] at hc
  subst hc
  exact h

lemma serializeFields_framing {f1 f2 : Fields} {r1 r2 : List Char}
    (h : serializeFields f1 ++ r1 = serializeFields f2 ++ r2) : f1 = f2 ∧ r1 = r2 := by
  simp only [serializeFields, List.cons_append, List.append_assoc, List.singleton_append] at h
  have h := List.append_cancel_left h
  obtain ⟨hw, h⟩ := intChars_framing h (nonDigitHead (by decide) _) (nonDigitHead (by decide) _)
  simp only [List.cons.injEq, true_and] at h
  have h := List.append_cancel_left h
  obtain ⟨hh, h⟩ := intChars_framing h (nonDigitHead (by decide) _) (nonDigitHead (by decide) _)
  simp only [List.cons.injEq, true_and] at h
  have h := List.append_cancel_left h
  obtain ⟨hl, h⟩ := intChars_framing h (nonDigitHead (by decide) _) (nonDigitHead (by decide) _)
  simp only [List.cons.injEq, true_and] at h
  have h := List.append_cancel_left h
  obtain ⟨hr, h⟩ := intChars_framing h (nonDigitHead (by decide) _) (nonDigitHead (by decide) _)
  simp only [List.cons.injEq, true_and] at h
  have h := List.append_cancel_left h
  obtain ⟨hb, h⟩ := intChars_framing h (nonDigitHead (by decide) _) (nonDigitHead (by decide) _)
  simp only [List.cons.injEq, true_and] at h
  have h := List.append_cancel_left h
  obtain ⟨ht, h⟩ := intChars_framing h (nonDigitHead (by decide) _) (nonDigitHead (by decide) _)
  simp only [List.cons.injEq, true_and] at h
  refine ⟨?_, h⟩
  ext1 <;> assumption

/-- Injectivity of the canonical serialization on well-formed `Dsl` values:
this is the precise sense in which "any difference changes the fingerprint". -/
lemma serializeDsl_inj {d1 d2 : Dsl} (w1 : DslWF d1) (w2 : DslWF d2)
    (h : serializeDsl d1 = serializeDsl d2) : d1 = d2 := by
  simp only [serializeDsl, List.append_assoc] at h
  have h := List.append_cancel_left h
  obtain ⟨heqs, h⟩ := serializeEqList_framing _ _ _ _ w1 w2 h
  have h := List.append_cancel_left h
  obtain ⟨hf, -⟩ := serializeFields_framing h
  ext1
  · exact heqs
  · exact hf

/-! ## Facts about the `---` splitter -/

lemma splitDashes_ne_nil (l : List Char) : splitDashes l ≠ [] := by
  rw [splitDashes.eq_def]
  split
  · simp
  · rename_i c cs hover
    cases h : splitDashes cs with
    | nil => simp [h]
    | cons a t => simp [h]
  · simp

/-- When the source contains no `---`, the single segment is the whole source. -/
lemma splitDashes_singleton (l : List Char) : ∀ y, splitDashes l = [y] → y = l := by
  induction l using splitDashes.induct with
  | case1 rest ih =>
    intro y h
    simp only [splitDashes, List.cons.injEq] at h
    exact absurd h.2 (splitDashes_ne_nil rest)
  | case2 c cs hover hnil ih =>
    exact absurd hnil (splitDashes_ne_nil cs)
  | case3 c cs hover hd tl hcons ih =>
    intro y h
    rw [splitDashes.eq_def] at h
    split at h
    · rename_i rest heq
      simp only [List.cons.injEq] at heq
      exact (hover rest heq.1 heq.2).elim
    · rename_i x2 xs2 hover2 heq
      simp only [List.cons.injEq] at heq
      obtain ⟨hc, hcs⟩ := heq
      subst hc; subst hcs
      rw [hcons] at h
      simp only [List.cons.injEq] at h
      obtain ⟨hy, htl⟩ := h
      subst htl
      rw [← hy, ih hd hcons]
    · rename_i heq
      simp at heq
  | case4 =>
    intro y h
    simp only [splitDashes, List.cons.injEq] at h
    exact h.1.symm

/-! ## The claims -/

/-- Claim C8: `parse` splits the source on the literal separator `---`: with 1
segment the whole source is the equation body and the fields keep their
defaults (no overrides are collected); with 2 segments the first is the
field-settings block and the second the body; with 0 or at least 3 segments
parse fails with the `TooManySegments` error; and `parse ""` succeeds with an
empty equation list and default fields. -/
theorem C8_segment_splitting :
    (∀ source : String,
      (((splitDashes source.data).length = 0 ∨ 3 ≤ (splitDashes source.data).length) →
        parse source = .error .tooManySegments) ∧
      (∀ b, splitDashes source.data = [b] →
        b = source.data ∧ parse source = (parseBody b >>= fun eqs => mkDsl eqs [])) ∧
      (∀ s b, splitDashes source.data = [s, b] →
        parse source =
          (parseSettingsBlock (String.mk s) >>= fun ov =>
            parseBody b >>= fun eqs => mkDsl eqs ov))) ∧
    parse "" = .ok { equations := [], fields := defaultFields } := by
  constructor
  · intro source
    refine ⟨?_, ?_, ?_⟩
    · intro hlen
      rcases hsp : splitDashes source.data with _ | ⟨a, _ | ⟨b, _ | ⟨c, rest⟩⟩⟩
      · exact absurd hsp (splitDashes_ne_nil _)
      · rw [hsp] at hlen; simp at hlen
      · rw [hsp] at hlen; simp at hlen
      · simp only [parse, hsp]
    · intro b hsp
      refine ⟨splitDashes_singleton _ b hsp, ?_⟩
      simp only [parse, hsp]
    · intro s b hsp
      simp only [parse, hsp]
  · decide

/-- Witness for C8 at concrete inputs: a three-segment source is rejected,
and a single-segment source is parsed as body only. -/
theorem C8_segment_splitting_witness :
    parse "a---b---c" = .error .tooManySegments ∧
    parse "x=1" = (parseBody ("x=1").data >>= fun eqs => mkDsl eqs []) := by
  constructor
  · exact ((C8_segment_splitting.1 "a---b---c").1 (Or.inr (by decide)))
  · exact ((C8_segment_splitting.1 "x=1").2.1 ("x=1").data (by decide)).2

/-- Claim C5: for every recognized (numeric) field key, the settings step
fails with the `InvalidFieldType` error exactly when the supplied (nonempty)
value does not `parseInt` to an integer, and when it does, that integer is
stored as the field's value; checked end-to-end on `parse` for `width`. -/
theorem C5_numeric_field_parseInt :
    (∀ (k v : String) (st : List (String × Int)), k ∈ recognizedKeys → v ≠ "" →
      ((applySetting st (k, v) = .error (.invalidFieldType k) ↔ parseIntJS v = none) ∧
       (∀ n : Int, parseIntJS v = some n → applySetting st (k, v) = .ok (setKeyI st k n)))) ∧
    parse "width=abc---y=x" = .error (.invalidFieldType "width") ∧
    parse "width=42---y=x" =
      .ok { equations := [{ equation := "y=x" }],
            fields := { defaultFields with width := 42 } } := by
  refine ⟨?_, by decide, by decide⟩
  intro k v st hk hv
  cases hp : parseIntJS v with
  | none =>
    constructor
    · simp [applySetting, hk, hv, hp]
    · intro n hn; exact absurd hn (by simp)
  | some m =>
    constructor
    · simp [applySetting, hk, hv, hp]
    · intro n hn
      obtain rfl : m = n := by simpa using hn
      simp [applySetting, hk, hv, hp]

/-- Witness for C5: `width=abc` is an invalid field type exactly because
`parseInt("abc")` is `NaN`, and `width=12px` stores the integer `12`. -/
theorem C5_numeric_field_parseInt_witness :
    (applySetting [] ("width", "abc") = .error (.invalidFieldType "width") ↔
      parseIntJS "abc" = none) ∧
    applySetting [] ("width", "12px") = .ok (setKeyI [] "width" 12) :=
  ⟨(C5_numeric_field_parseInt.1 "width" "abc" [] (by decide) (by decide)).1,
   (C5_numeric_field_parseInt.1 "width" "12px" [] (by decide) (by decide)).2 12 (by decide)⟩

/-- Claim C10: field-settings keys are matched case-sensitively: every key not
among the six recognized names — including case variants such as `Width` —
fails with the `UnrecognizedField` error, even though equation modifier tokens
are matched case-insensitively (`solid` is accepted as the `SOLID` style). -/
theorem C10_field_keys_case_sensitive :
    (∀ (k v : String) (st : List (String × Int)), k ∉ recognizedKeys →
      applySetting st (k, v) = .error (.unrecognizedField k)) ∧
    parse "Width=10---y=x" = .error (.unrecognizedField "Width") ∧
    parse "y=x|solid" =
      .ok { equations := [{ equation := "y=x", style := some "SOLID", keyOrder := ["style"] }],
            fields := defaultFields } := by
  refine ⟨?_, by decide, by decide⟩
  intro k v st hk
  simp [applySetting, hk]

/-- Witness for C10: the capitalised key `Width` is rejected by the settings
step. -/
theorem C10_field_keys_case_sensitive_witness :
    applySetting [] ("Width", "10") = .error (.unrecognizedField "Width") :=
  C10_field_keys_case_sensitive.1 "Width" "10" [] (by decide)

/-- Claim C6: at most one style token and at most one color token per
equation line; a second style or color token is a duplicate-style /
duplicate-color parse error and never silently overwrites the earlier one,
and in particular the two sample inputs fail as stated. -/
theorem C6_duplicate_style_color :
    parse "x=1|SOLID|SOLID" = .error (.duplicateStyle "SOLID" "SOLID") ∧
    parse "x=1|#ff00ff|RED" = .error (.duplicateColor "#ff00ff" "RED") ∧
    (∀ (e : Equation) (seg s : String), e.style = some s →
      styleNames.contains (jsToUpper seg) = true →
      processSegment e seg = .error (.duplicateStyle s (jsToUpper seg))) ∧
    (∀ (e : Equation) (seg c : String), e.color = some c →
      styleNames.contains (jsToUpper seg) = false →
      (colorNames.contains (jsToUpper seg) || isHexColor seg) = true →
      processSegment e seg = .error (.duplicateColor c (jsToUpper seg))) := by
  refine ⟨by decide, by decide, ?_, ?_⟩
  · intro e seg s hs hstyle
    have hmem : jsToUpper seg ∈ styleNames := by simpa using hstyle
    simp [processSegment, hmem, hs]
  · intro e seg c hc hstyle hcolor
    have hmem : jsToUpper seg ∉ styleNames := by simpa using hstyle
    have hcol : jsToUpper seg ∈ colorNames ∨ isHexColor seg = true := by simpa using hcolor
    simp [processSegment, hmem, hcol, hc]

/-- Witness for C6's general clauses: a second `SOLID` on a line whose style
is already set, and a named color on a line whose color is already a hex
code, both fail without overwriting. -/
theorem C6_duplicate_style_color_witness :
    processSegment { equation := "x=1", style := some "SOLID", keyOrder := ["style"] } "solid"
      = .error (.duplicateStyle "SOLID" "SOLID") ∧
    processSegment { equation := "x=1", color := some "#ff00ff", keyOrder := ["color"] } "red"
      = .error (.duplicateColor "#ff00ff" "RED") := by
  constructor
  · have h := C6_duplicate_style_color.2.2.1
      { equation := "x=1", style := some "SOLID", keyOrder := ["style"] } "solid" "SOLID"
      (by decide) (by decide)
    simpa using h
  · have h := C6_duplicate_style_color.2.2.2
      { equation := "x=1", color := some "#ff00ff", keyOrder := ["color"] } "red" "#ff00ff"
      (by decide) (by decide) (by decide)
    simpa using h

/-- String append distributes over the character data (the source-level
`+=` concatenations are modelled with `String.append`). -/
lemma strData_append (a b : String) : (a ++ b).data = a.data ++ b.data := rfl

lemma str_nil_append (s : String) : "" ++ s = s :=
  String.ext (by simp [strData_append])

lemma str_append_assoc (a b c : String) : a ++ b ++ c = a ++ (b ++ c) :=
  String.ext (by simp [strData_append])

/-- Claim C9: an empty modifier segment (adjacent `|`s or a trailing `|`) is
never rejected: it is classified as a restriction fragment and appends the
literal `{}` to the equation's accumulated restriction. -/
theorem C9_empty_segment_restriction :
    (∀ e : Equation, processSegment e "" = .ok { e with
        restriction := some (e.restriction.getD "" ++ "\x7b\x7d"),
        keyOrder := if e.restriction.isSome then e.keyOrder
                    else e.keyOrder ++ ["restriction"] }) ∧
    parse "x=1|" =
      .ok { equations := [{ equation := "x=1", restriction := some "\x7b\x7d",
                            keyOrder := ["restriction"] }],
            fields := defaultFields } ∧
    parse "x=1||x>0" =
      .ok { equations := [{ equation := "x=1", restriction := some "\x7b\x7d\x7bx>0\x7d",
                            keyOrder := ["restriction"] }],
            fields := defaultFields } := by
  refine ⟨?_, by decide, by decide⟩
  intro e
  have hwrap : ("\x7b" ++ "" ++ "\x7d" : String) = "\x7b\x7d" := by decide
  have h1 : jsToUpper "" ∉ styleNames := by decide
  have h2 : ¬(jsToUpper "" ∈ colorNames ∨ isHexColor "" = true) := by decide
  have hfind : bannedChars.find? (fun c => strContains "" c) = none := by decide
  cases hr : e.restriction with
  | none =>
    simp [processSegment, checkBanned, hr, hwrap, str_nil_append, h1, h2, hfind]
    rfl
  | some r =>
    simp [processSegment, checkBanned, hr, hwrap, h1, h2, hfind]
    rfl

lemma str_append_nil (s : String) : s ++ "" = s :=
  String.ext (by simp [strData_append])

lemma str_foldl_append (l : List String) :
    ∀ s : String, l.foldl (fun r x => r ++ x) s = s ++ String.join l := by
  induction l with
  | nil => intro s; exact (str_append_nil s).symm
  | cons b t ih =>
    intro s
    show t.foldl _ (s ++ b) = s ++ String.join (b :: t)
    rw [ih (s ++ b)]
    have hj : String.join (b :: t) = b ++ String.join t := by
      show t.foldl _ ("" ++ b) = _
      rw [ih ("" ++ b), str_nil_append]
    rw [hj, str_append_assoc]

lemma str_join_cons (a : String) (l : List String) :
    String.join (a :: l) = a ++ String.join l := by
  show l.foldl _ ("" ++ a) = _
  rw [str_foldl_append l ("" ++ a), str_nil_append]

/-- The restriction case of the segment loop, as a single record update:
the fragment is wrapped in braces and appended to the accumulated
restriction, and the `restriction` property is inserted on first use. -/
lemma processSegment_restriction (e : Equation) (seg : String)
    (h1 : jsToUpper seg ∉ styleNames)
    (h2 : ¬(jsToUpper seg ∈ colorNames ∨ isHexColor seg = true))
    (h3 : checkBanned seg "graph configuration" = .ok ()) :
    processSegment e seg = .ok { e with
      restriction := some (e.restriction.getD "" ++ ("\x7b" ++ seg ++ "\x7d")),
      keyOrder := if e.restriction.isSome then e.keyOrder
                  else e.keyOrder ++ ["restriction"] } := by
  cases hr : e.restriction with
  | none =>
    simp [processSegment, h1, h2, h3, hr, str_nil_append]
    rfl
  | some r =>
    simp [processSegment, h1, h2, h3, hr]
    rfl

/-- Restriction fragments accumulate over the segment loop in encounter
order. -/
lemma foldl_restrictions (segs : List String) :
    ∀ (e : Equation), segs ≠ [] →
    (∀ x ∈ segs, jsToUpper x ∉ styleNames ∧
      ¬(jsToUpper x ∈ colorNames ∨ isHexColor x = true) ∧
      checkBanned x "graph configuration" = .ok ()) →
    segs.foldlM processSegment e = .ok { e with
      restriction := some (e.restriction.getD "" ++
        String.join (segs.map (fun x => "\x7b" ++ x ++ "\x7d"))),
      keyOrder := if e.restriction.isSome then e.keyOrder
                  else e.keyOrder ++ ["restriction"] } := by
  induction segs with
  | nil => intro e h; exact absurd rfl h
  | cons x rest ih =>
    intro e hne hall
    obtain ⟨hx1, hx2, hx3⟩ := hall x (List.mem_cons_self _ _)
    have hstep := processSegment_restriction e x hx1 hx2 hx3
    rw [List.foldlM_cons, hstep]
    show rest.foldlM processSegment _ = _
    cases rest with
    | nil =>
      show Except.ok _ = _
      have hj : String.join ["\x7b" ++ x ++ "\x7d"] = "\x7b" ++ x ++ "\x7d" := by
        rw [str_join_cons]
        exact str_append_nil _
      simp [hj]
    | cons y rest2 =>
      rw [ih _ (by simp) (fun z hz => hall z (List.mem_cons_of_mem _ hz))]
      simp only [Option.getD_some, Option.isSome_some, if_true, List.map_cons, str_join_cons,
        Except.ok.injEq]
      ext1 <;> simp [str_append_assoc]

/-- Claim C7: every `|`-segment after the expression is classified
case-insensitively in fixed precedence — style-enum match first, then color
(named enum or hex pattern, the hex form stored with its original casing and
the named form normalised to the uppercase constant), else a restriction
fragment wrapped in `{}` and appended to the accumulated restriction in
encounter order, with multiple fragments cumulative. -/
theorem C7_segment_classification :
    (∀ (e : Equation) (seg : String),
      (styleNames.contains (jsToUpper seg) = true → e.style = none →
        processSegment e seg = .ok { e with
          style := some (jsToUpper seg),
          keyOrder := e.keyOrder ++ ["style"] }) ∧
      (styleNames.contains (jsToUpper seg) = false →
        (colorNames.contains (jsToUpper seg) || isHexColor seg) = true → e.color = none →
        processSegment e seg = .ok { e with
          color := some (if isHexColor seg then seg else jsToUpper seg),
          keyOrder := e.keyOrder ++ ["color"] }) ∧
      (styleNames.contains (jsToUpper seg) = false →
        (colorNames.contains (jsToUpper seg) || isHexColor seg) = false →
        checkBanned seg "graph configuration" = .ok () →
        processSegment e seg = .ok { e with
          restriction := some (e.restriction.getD "" ++ ("\x7b" ++ seg ++ "\x7d")),
          keyOrder := if e.restriction.isSome then e.keyOrder
                      else e.keyOrder ++ ["restriction"] })) ∧
    (∀ (e : Equation) (segs : List String), segs ≠ [] →
      (∀ x ∈ segs, styleNames.contains (jsToUpper x) = false ∧
        (colorNames.contains (jsToUpper x) || isHexColor x) = false ∧
        checkBanned x "graph configuration" = .ok ()) →
      segs.foldlM processSegment e = .ok { e with
        restriction := some (e.restriction.getD "" ++
          String.join (segs.map (fun x => "\x7b" ++ x ++ "\x7d"))),
        keyOrder := if e.restriction.isSome then e.keyOrder
                    else e.keyOrder ++ ["restriction"] }) ∧
    parse "y=x|red" =
      .ok { equations := [{ equation := "y=x", color := some "RED", keyOrder := ["color"] }],
            fields := defaultFields } ∧
    parse "y=x|#AbC" =
      .ok { equations := [{ equation := "y=x", color := some "#AbC", keyOrder := ["color"] }],
            fields := defaultFields } := by
  refine ⟨?_, ?_, by decide, by decide⟩
  · intro e seg
    refine ⟨?_, ?_, ?_⟩
    · intro hstyle hnone
      have hmem : jsToUpper seg ∈ styleNames := by simpa using hstyle
      simp [processSegment, hmem, hnone]
    · intro hstyle hcolor hnone
      have hmem : jsToUpper seg ∉ styleNames := by simpa using hstyle
      have hcol : jsToUpper seg ∈ colorNames ∨ isHexColor seg = true := by simpa using hcolor
      simp [processSegment, hmem, hcol, hnone]
    · intro hstyle hcolor hbanned
      have hmem : jsToUpper seg ∉ styleNames := by simpa using hstyle
      have hcol : ¬(jsToUpper seg ∈ colorNames ∨ isHexColor seg = true) := by
        simpa using hcolor
      exact processSegment_restriction e seg hmem hcol hbanned
  · intro e segs hne hall
    refine foldl_restrictions segs e hne (fun x hx => ?_)
    obtain ⟨hx1, hx2, hx3⟩ := hall x hx
    exact ⟨by simpa using hx1, by simpa using hx2, hx3⟩

/-- Witness for C7 at concrete inputs: `dashed` is a style, `#AbC` is a hex
color kept with its casing, `x>0` is a restriction, and two restriction
fragments accumulate in encounter order. -/
theorem C7_segment_classification_witness :
    processSegment { equation := "y=x" } "dashed"
      = .ok { equation := "y=x", style := some "DASHED", keyOrder := ["style"] } ∧
    processSegment { equation := "y=x" } "#AbC"
      = .ok { equation := "y=x", color := some "#AbC", keyOrder := ["color"] } ∧
    processSegment { equation := "y=x" } "x>0"
      = .ok { equation := "y=x", restriction := some "\x7bx>0\x7d", keyOrder := ["restriction"] } ∧
    ["x>0", "y<1"].foldlM processSegment { equation := "y=x" }
      = .ok { equation := "y=x", restriction := some "\x7bx>0\x7d\x7by<1\x7d",
              keyOrder := ["restriction"] } := by
  refine ⟨?_, ?_, ?_, ?_⟩
  · have h := ((C7_segment_classification.1 { equation := "y=x" } "dashed").1
      (by decide) (by decide))
    simpa using h
  · have h := ((C7_segment_classification.1 { equation := "y=x" } "#AbC").2.1
      (by decide) (by decide) (by decide))
    simpa using h
  · have h := ((C7_segment_classification.1 { equation := "y=x" } "x>0").2.2
      (by decide) (by decide) (by decide))
    simpa using h
  · have h := (C7_segment_classification.2.1 { equation := "y=x" } ["x>0", "y<1"]
      (by decide) (by decide))
    simpa using h

/-- Counterexample to claim C1 as stated: the two sources `x=1|SOLID|RED` and
`x=1|RED|SOLID` parse to `Spec`s with field-for-field-equal content (same
expression, style, color, restriction, and fields), yet their fingerprints
differ, because `JSON.stringify` serializes the `style`/`color` properties in
source-encounter order.  The fingerprint is therefore NOT independent of the
order in which the modifiers appeared. -/
theorem C1_fingerprint_modifier_order_counterexample :
    parse "x=1|SOLID|RED" = .ok
      { equations := [{ equation := "x=1", style := some "SOLID", color := some "RED",
                        keyOrder := ["style", "color"] }],
        fields := defaultFields } ∧
    parse "x=1|RED|SOLID" = .ok
      { equations := [{ equation := "x=1", style := some "SOLID", color := some "RED",
                        keyOrder := ["color", "style"] }],
        fields := defaultFields } ∧
    (List.map (fun e => (e.equation, e.style, e.color, e.restriction))
        [({ equation := "x=1", style := some "SOLID", color := some "RED",
            keyOrder := ["style", "color"] } : Equation)] =
      List.map (fun e => (e.equation, e.style, e.color, e.restriction))
        [({ equation := "x=1", style := some "SOLID", color := some "RED",
            keyOrder := ["color", "style"] } : Equation)]) ∧
    dslHash { equations := [{ equation := "x=1", style := some "SOLID", color := some "RED",
                              keyOrder := ["style", "color"] }], fields := defaultFields } ≠
      dslHash { equations := [{ equation := "x=1", style := some "SOLID", color := some "RED",
                                keyOrder := ["color", "style"] }], fields := defaultFields } :=
  ⟨by decide, by decide, by decide, by decide⟩

/-- Claim C1 as amended: two `Spec`s produce the same fingerprint exactly when
they agree in all equation content (expression, style, color, restriction),
in the serialization order of each equation's modifier properties (the order
the style/color/restriction modifiers first appeared in the source), in
equation order, and in all six field values — i.e. exactly when the `Dsl`
values are equal.  In particular any difference in an equation's expression,
style, color, restriction, order, or any field value changes the fingerprint
(the SHA-256 digest being idealised as injective, as the spec's
collision-negligibility allows). -/
theorem C1_fingerprint_determinism_amended :
    ∀ d1 d2 : Dsl, DslWF d1 → DslWF d2 → (dslHash d1 = dslHash d2 ↔ d1 = d2) := by
  intro d1 d2 w1 w2
  constructor
  · intro h
    exact serializeDsl_inj w1 w2 (congrArg String.data h)
  · intro h
    rw [h]

/-- Witness for C1's amended claim at two concrete specs differing only in
style: their fingerprints differ since the specs differ. -/
theorem C1_fingerprint_determinism_amended_witness :
    (dslHash { equations := [{ equation := "x=1", style := some "SOLID", keyOrder := ["style"] }],
               fields := defaultFields }
      = dslHash { equations := [{ equation := "x=1", style := some "DASHED", keyOrder := ["style"] }],
                  fields := defaultFields })
    ↔ ({ equations := [{ equation := "x=1", style := some "SOLID", keyOrder := ["style"] }],
         fields := defaultFields } : Dsl)
      = { equations := [{ equation := "x=1", style := some "DASHED", keyOrder := ["style"] }],
          fields := defaultFields } :=
  C1_fingerprint_determinism_amended _ _ (by decide) (by decide)

/-- Claim C2 evaluated at its failing input (code bug): the renderer gates
cache use on `if (settings.cache)` — the truthiness of the always-present
cache-settings object — and never reads `settings.cache.enabled`.  With
`enabled = false` a memory-cache hit still returns the cached image without
invoking the external renderer, and a success message still writes the
cache, contradicting the claim that a disabled cache is neither consulted
nor written. -/
theorem C2_cache_enabled_flag_ignored :
    renderSync "h1"
        { cache := { enabled := false, location := CacheLocation.memory, directory := none } }
        [("h1", "IMGDATA")] [] "/vault" "/tmp"
      = { el := [Elem.img "IMGDATA"], listeners := 0, rendererInvoked := false } ∧
    (handlerStep "h1"
        { cache := { enabled := false, location := CacheLocation.memory, directory := none } }
        "/tmp" "/tmp/desmos-graph-h1.png" true
        { el := [Elem.iframe], listeners := 1, resolved := false,
          graphCache := [], fsFiles := [], notices := [] }
        { origin := "app://obsidian.md", t := "desmos-graph", hash := "h1",
          d := "render", data := "D" }).graphCache
      = [("h1", "D")] :=
  ⟨by decide, by decide⟩

/-- Counterexample to claim C3 as stated: a matching message carrying the
error outcome does NOT deregister the listener — `removeEventListener` is
reached only in the `"render"` branch — so after a matching error message
the listener count is still 1. -/
theorem C3_error_outcome_keeps_listener :
    handlerStep "h1"
        { cache := { enabled := true, location := CacheLocation.memory, directory := none } }
        "/tmp" "/tmp/desmos-graph-h1.png" true
        { el := [Elem.iframe], listeners := 1, resolved := false,
          graphCache := [], fsFiles := [], notices := [] }
        { origin := "app://obsidian.md", t := "desmos-graph", hash := "h1",
          d := "error", data := "Oops" }
      = { el := [Elem.errorDiv "Oops"], listeners := 1, resolved := false,
          graphCache := [], fsFiles := [], notices := [] } :=
  by decide

/-- Claim C3 as amended: one listener is registered exactly when the request
reaches the external renderer (cache hits return before registration); the
listener is deregistered by the first matching message carrying the success
(`"render"`) outcome; a matching message with any other outcome (in
particular an error) leaves the listener registered, and a non-matching
message leaves the whole state unchanged. -/
theorem C3_listener_lifecycle_amended :
    (∀ (hash : String) (s : Settings) (gc fs : List (String × String)) (vr tm : String),
      (renderSync hash s gc fs vr tm).listeners
        = (if (renderSync hash s gc fs vr tm).rendererInvoked then 1 else 0)) ∧
    (∀ (hash : String) (s : Settings) (cd ct : String) (de : Bool) (st : RState) (m : Msg),
      m.origin = "app://obsidian.md" → m.t = "desmos-graph" → m.hash = hash →
      ((m.d = "render" → (handlerStep hash s cd ct de st m).listeners = st.listeners - 1) ∧
       (m.d ≠ "render" → (handlerStep hash s cd ct de st m).listeners = st.listeners))) ∧
    (∀ (hash : String) (s : Settings) (cd ct : String) (de : Bool) (st : RState) (m : Msg),
      ¬(m.origin = "app://obsidian.md" ∧ m.t = "desmos-graph" ∧ m.hash = hash) →
      handlerStep hash s cd ct de st m = st) := by
  refine ⟨?_, ?_, ?_⟩
  · intro hash s gc fs vr tm
    simp only [renderSync]
    split_ifs <;> simp_all
  · intro hash s cd ct de st m h1 h2 h3
    constructor
    · intro hd
      by_cases hmem : s.cache.location = CacheLocation.memory
      · simp [handlerStep, h1, h2, h3, hd, hmem]
      · cases de <;> simp [handlerStep, h1, h2, h3, hd, hmem]
    · intro hd
      by_cases herr : m.d = "error"
      · simp [handlerStep, h1, h2, h3, hd, herr]
      · simp [handlerStep, h1, h2, h3, hd, herr]
  · intro hash s cd ct de st m hne
    simp only [handlerStep, if_neg hne]

/-- Witness for C3's amended claim: a cache miss registers one listener, a
matching success message removes it, a matching error message does not, and
an unrelated message changes nothing. -/
theorem C3_listener_lifecycle_amended_witness :
    ((renderSync "h1"
        { cache := { enabled := true, location := CacheLocation.memory, directory := none } }
        [] [] "/vault" "/tmp").listeners
      = (if (renderSync "h1"
            { cache := { enabled := true, location := CacheLocation.memory, directory := none } }
            [] [] "/vault" "/tmp").rendererInvoked then 1 else 0)) ∧
    (handlerStep "h1"
        { cache := { enabled := true, location := CacheLocation.memory, directory := none } }
        "/tmp" "/t.png" true
        { el := [Elem.iframe], listeners := 1, resolved := false,
          graphCache := [], fsFiles := [], notices := [] }
        { origin := "app://obsidian.md", t := "desmos-graph", hash := "h1",
          d := "render", data := "D" }).listeners = 1 - 1 ∧
    (handlerStep "h1"
        { cache := { enabled := true, location := CacheLocation.memory, directory := none } }
        "/tmp" "/t.png" true
        { el := [Elem.iframe], listeners := 1, resolved := false,
          graphCache := [], fsFiles := [], notices := [] }
        { origin := "app://obsidian.md", t := "desmos-graph", hash := "h1",
          d := "error", data := "E" }).listeners = 1 ∧
    handlerStep "h1"
        { cache := { enabled := true, location := CacheLocation.memory, directory := none } }
        "/tmp" "/t.png" true
        { el := [Elem.iframe], listeners := 1, resolved := false,
          graphCache := [], fsFiles := [], notices := [] }
        { origin := "https://evil.example", t := "desmos-graph", hash := "h1",
          d := "render", data := "D" }
      = { el := [Elem.iframe], listeners := 1, resolved := false,
          graphCache := [], fsFiles := [], notices := [] } := by
  refine ⟨?_, ?_, ?_, ?_⟩
  · exact C3_listener_lifecycle_amended.1 "h1" _ [] [] "/vault" "/tmp"
  · exact (C3_listener_lifecycle_amended.2.1 "h1" _ "/tmp" "/t.png" true _ _
      rfl rfl rfl).1 rfl
  · exact (C3_listener_lifecycle_amended.2.1 "h1" _ "/tmp" "/t.png" true _ _
      rfl rfl rfl).2 (by decide)
  · exact C3_listener_lifecycle_amended.2.2 "h1" _ "/tmp" "/t.png" true _ _ (by decide)

/-- Claim C4: on a matching message carrying the error outcome, the handler
delivers a render error to the output element with the renderer-supplied
message, and nothing else changes: no in-memory cache insert, no filesystem
write, no notice — the state is the input state with only `el` replaced by
the error display.  (The source's promise is resolved only by the success
branch; delivery of the outcome to the caller is the output element.) -/
theorem C4_error_signal_no_cache_write :
    ∀ (hash : String) (s : Settings) (cd ct : String) (de : Bool) (st : RState) (m : Msg),
      m.origin = "app://obsidian.md" → m.t = "desmos-graph" → m.hash = hash → m.d = "error" →
      handlerStep hash s cd ct de st m = { st with el := [Elem.errorDiv m.data] } := by
  intro hash s cd ct de st m h1 h2 h3 hd
  simp [handlerStep, h1, h2, h3, hd]

/-- Witness for C4: a concrete matching error message leaves the caches
untouched and shows the error. -/
theorem C4_error_signal_no_cache_write_witness :
    handlerStep "h1"
        { cache := { enabled := true, location := CacheLocation.filesystem,
                     directory := some "/cache" } }
        "/cache" "/cache/desmos-graph-h1.png" true
        { el := [Elem.iframe], listeners := 1, resolved := false,
          graphCache := [("other", "X")], fsFiles := [], notices := [] }
        { origin := "app://obsidian.md", t := "desmos-graph", hash := "h1",
          d := "error", data := "Division by zero" }
      = { el := [Elem.errorDiv "Division by zero"], listeners := 1, resolved := false,
          graphCache := [("other", "X")], fsFiles := [], notices := [] } :=
  C4_error_signal_no_cache_write "h1" _ "/cache" "/cache/desmos-graph-h1.png" true _ _
    rfl rfl rfl rfl
